import Mathlib

/-!
Verification of the Keithley SMU sweep controller (files `MPPT.py` and
`sweep.py`) against its natural-language specification.

The embedding models the measurement-relevant core of both applications:

* real numbers are modelled as `ℚ` with exact arithmetic (the Python code
  uses binary floats; none of the verified properties depend on rounding);
* the transcendental `np.exp` used by the simulation branch is abstracted
  as an arbitrary function parameter, since no verified property depends
  on its values — only on the branch structure and the clamping around it;
* an instrument reading (`keithley.query(':READ?')` split on commas, each
  field then passed to `float`) is modelled as a `List (Option ℚ)`: one
  entry per comma-separated field, `none` for a field `float` rejects; a
  whole-query failure is modelled as `none` at the `Option (List _)` level;
* GUI rendering, logging, CSV dialogs and `time.sleep` delays are dropped:
  they do not touch the measured data.
-/

/-- A recorded sample: measured voltage, stored (sign-adjusted) current,
and derived power, exactly as the three parallel lists `self.voltages`,
`self.currents`, `self.powers` of `MPPT.py` record them. -/
structure Sample where
  voltage : ℚ
  current : ℚ
  power : ℚ
deriving DecidableEq, Repr

/-- SCPI-style commands written to the instrument, one constructor per
distinct `keithley.write` in the source (`MPPT.py` / `sweep.py`).  The
payload records the data the command carries; the literal command text is
an instrument-protocol detail. -/
inductive Cmd where
  /-- `:SOUR:FUNC VOLT` (`volt = true`) or `:SOUR:FUNC CURR`. -/
  | sourFunc (volt : Bool)
  /-- `:SENS:FUNC "CURR"` (`curr = true`) or `:SENS:FUNC "VOLT"`. -/
  | sensFunc (curr : Bool)
  /-- `:SYST:RSEN ON/OFF`. -/
  | rsen (fourWire : Bool)
  /-- `:ROUT:TERM FRONT` (`front = true`) or `:ROUT:TERM REAR`. -/
  | routTerm (front : Bool)
  /-- `:SENS:CURR:PROT limit` — current compliance. -/
  | currProt (limit : ℚ)
  /-- `:SENS:VOLT:PROT limit` — voltage compliance. -/
  | voltProt (limit : ℚ)
  /-- `:OUTP ON`. -/
  | outpOn
  /-- `:OUTP OFF`. -/
  | outpOff
  /-- `:SOUR:VOLT v`. -/
  | sourVolt (v : ℚ)
deriving DecidableEq, Repr

/-- `true` exactly on the compliance-limit commands. -/
def Cmd.isProt : Cmd → Bool
  | .currProt _ => true
  | .voltProt _ => true
  | _ => false

/-- `true` exactly on the output-enable command. -/
def Cmd.isOutpOn : Cmd → Bool
  | .outpOn => true
  | _ => false

/-- `true` when no compliance-limit command occurs after an output-enable
command anywhere in the list — i.e. output enable is never issued before
the compliance limits. -/
def noProtAfterOutpOn : List Cmd → Bool
  | [] => true
  | c :: rest =>
    if c.isOutpOn then rest.all (fun x => ! x.isProt)
    else noProtAfterOutpOn rest

/-- Terminal status of a run, read off the code's end-of-run behaviour:
breaking out of the loop via the abort flag shows the `Sweep Aborted`
dialog (`aborted`); otherwise a nonempty data set logs
`Sweep completed with N valid data points` (`completed`) and an empty one
warns that no valid data points were collected (`completedNoData`).
Precedence between abort and completion follows the spec state machine
(the ABORTING path wins). -/
inductive Status where
  | completed
  | aborted
  | completedNoData
deriving DecidableEq, Repr

/-- `np.linspace(start, stop, n)` in exact arithmetic: `n` evenly spaced
values from `start` to `stop` inclusive (`MPPT.py` line 569,
`sweep.py` line 203).  For `n = 1` the `ℚ` convention `x / 0 = 0` makes
the sole entry `start`, matching numpy; for `n = 0` the list is empty. -/
def linspace (start stop : ℚ) (n : ℕ) : List ℚ :=
  (List.range n).map (fun (i : ℕ) => start + (i : ℚ) * ((stop - start) / ((n : ℚ) - 1)))

/-- `argmaxFrom i bi bv xs`: index of the first maximum of `bv :: xs`,
where `bi` is the index already recorded for the current best `bv` and
`i` is the global index of the head of `xs`.  Mirrors `np.argmax`, which
keeps the earliest index on ties (replacement only on strict `<`). -/
def argmaxFrom : ℕ → ℕ → ℚ → List ℚ → ℕ
  | _, bi, _, [] => bi
  | i, bi, bv, x :: xs =>
    if bv < x then argmaxFrom (i + 1) i x xs
    else argmaxFrom (i + 1) bi bv xs

/-- `np.argmax` on a rational list: index of the first occurrence of the
maximum (`0` on the empty list, where numpy would raise). -/
def argmax : List ℚ → ℕ
  | [] => 0
  | x :: xs => argmaxFrom 1 0 x xs

/-- The simulated solar-cell current of `MPPT.py` lines 591–612:
`Isc = 0.5`, `Voc = 0.8 * stop`, `Vt = 0.6`; current `0` for
`voltage >= Voc`, otherwise `Isc * (1 - exp((v - Voc)/Vt)) + noise`
clamped to `≥ 0`.  `expf` abstracts `np.exp` and `noise` the
`np.random.normal(0, 0.01)` draw for this point. -/
def simCurrent (expf : ℚ → ℚ) (noise v stop : ℚ) : ℚ :=
  let isc : ℚ := 1 / 2
  let voc : ℚ := stop * (4 / 5)
  let vt : ℚ := 3 / 5
  if voc ≤ v then 0
  else max 0 (isc * (1 - expf ((v - voc) / vt)) + noise)

/-- Parsing of one `:READ?` response in `MPPT.py` lines 622–629: the
query may fail (`none` at the outer level), otherwise the response splits
into fields; success requires at least two fields whose first two both
parse, and the stored current is the second field sign-inverted
(`float(values[1]) * -1`).  Any failure is the per-point exception. -/
def parseReading : Option (List (Option ℚ)) → Option (ℚ × ℚ)
  | none => none
  | some fields =>
    match fields with
    | (some a) :: (some b) :: _ => some (a, -b)
    | _ => none

/-- The environment a run interacts with: per-point-index instrument
responses, per-point simulation noise, the exponential function, and the
value of the cooperative abort flag as observed at each loop iteration. -/
structure Env where
  readings : ℕ → Option (List (Option ℚ))
  noise : ℕ → ℚ
  expf : ℚ → ℚ
  abortAt : ℕ → Bool

/-- One point's measurement (`MPPT.py` lines 591–629): the simulation
branch always succeeds with `(v, simCurrent ...)`; the real branch is the
parsed `:READ?` response, `none` meaning the caught per-point
exception. -/
def measurePoint (env : Env) (simMode : Bool) (stop : ℚ) (idx : ℕ) (v : ℚ) :
    Option (ℚ × ℚ) :=
  if simMode then some (v, simCurrent env.expf (env.noise idx) v stop)
  else parseReading (env.readings idx)

/-- The mutable state of `MPPT.voltage_sweep`: the three parallel data
lists, the per-point `:SOUR:VOLT` writes issued so far (real mode), and
whether the loop was exited through the abort flag. -/
structure RunState where
  voltages : List ℚ
  currents : List ℚ
  powers : List ℚ
  writes : List Cmd
  aborted : Bool
deriving DecidableEq, Repr

/-- One non-aborted iteration of the `MPPT.voltage_sweep` loop body
(lines 583–647): in real mode the setpoint is driven (`:SOUR:VOLT v`)
before the measurement; on success `power = v * i` is derived and all
three lists are appended; on the caught per-point exception nothing is
appended and the loop proceeds. -/
def sweepStep (env : Env) (simMode : Bool) (stop : ℚ) (st : RunState)
    (idx : ℕ) (v : ℚ) : RunState :=
  let st1 := if simMode then st
    else { st with writes := st.writes ++ [Cmd.sourVolt v] }
  match measurePoint env simMode stop idx v with
  | none => st1
  | some p =>
    { st1 with
      voltages := st1.voltages ++ [p.1]
      currents := st1.currents ++ [p.2]
      powers := st1.powers ++ [p.1 * p.2] }

/-- The `MPPT.voltage_sweep` loop (lines 577–647): before each setpoint
the abort flag is checked; if set the loop breaks (recorded in
`aborted`), otherwise the point is taken via `sweepStep`. -/
def runPoints (env : Env) (simMode : Bool) (stop : ℚ) :
    ℕ → List ℚ → RunState → RunState
  | _, [], st => st
  | idx, v :: rest, st =>
    if env.abortAt idx then { st with aborted := true }
    else runPoints env simMode stop (idx + 1) rest
      (sweepStep env simMode stop st idx v)

/-- Outcome of one `MPPT.voltage_sweep` run. -/
structure SweepOutcome where
  voltages : List ℚ
  currents : List ℚ
  powers : List ℚ
  writes : List Cmd
  aborted : Bool
  /-- Commands written after the loop (lines 649–656): zero the source
  and disable the output, skipped in simulation mode. -/
  postCmds : List Cmd
deriving DecidableEq, Repr

/-- `MPPT.voltage_sweep(start, stop, points, delay)` (lines 567–665):
compute the setpoint sequence once, clear the data lists, run the loop,
then (real mode only) zero the source and turn the output off. -/
def voltage_sweep (env : Env) (simMode : Bool) (start stop : ℚ)
    (points : ℕ) : SweepOutcome :=
  let st := runPoints env simMode stop 0 (linspace start stop points)
    { voltages := [], currents := [], powers := [], writes := [],
      aborted := false }
  { voltages := st.voltages, currents := st.currents, powers := st.powers,
    writes := st.writes, aborted := st.aborted,
    postCmds := if simMode then [] else [Cmd.sourVolt 0, Cmd.outpOff] }

/-- Terminal status of a run (see `Status`). -/
def status (o : SweepOutcome) : Status :=
  if o.aborted then Status.aborted
  else if o.voltages.isEmpty then Status.completedNoData
  else Status.completed

/-- `MPPT.find_mppt_point` (lines 701–715): nothing on empty data,
otherwise the `(voltage, current, power)` triple at `np.argmax(powers)` —
the first index attaining the maximal power. -/
def find_mppt_point (o : SweepOutcome) : Option Sample :=
  if o.powers.isEmpty then none
  else some
    { voltage := o.voltages.getD (argmax o.powers) 0
      current := o.currents.getD (argmax o.powers) 0
      power := o.powers.getD (argmax o.powers) 0 }

namespace MPPT

/-- `MPPT.setupIV` (lines 483–526), real-hardware path: source function,
sense function, sense-wire mode, front terminals, current compliance
(only when the `Max Current` field is nonempty), output enable, zero the
source — in exactly this order. -/
def setupIV (fourWire : Bool) (maxCurrent : Option ℚ) : List Cmd :=
  [Cmd.sourFunc true, Cmd.sensFunc true, Cmd.rsen fourWire,
   Cmd.routTerm true] ++
  (match maxCurrent with
   | some m => [Cmd.currProt m]
   | none => []) ++
  [Cmd.outpOn, Cmd.sourVolt 0]

/-- Result of `MPPT.start_sweep`: the configuration commands issued and
the sweep outcome. -/
structure StartResult where
  configCmds : List Cmd
  outcome : SweepOutcome

/-- `MPPT.start_sweep` (lines 528–559): after parsing the numeric inputs
(typed here, so parsing cannot fail) it configures the instrument via
`setupIV` (skipped in simulation mode) and runs `voltage_sweep`.  The
code performs no validation of the parameter values — in particular none
of `points`.  Instrument-write failures during setup (the `False` branch
of `setupIV`) are not modelled; no verified claim depends on them. -/
def start_sweep (env : Env) (simMode fourWire : Bool) (maxCurrent : Option ℚ)
    (start stop : ℚ) (points : ℕ) : StartResult :=
  { configCmds := if simMode then [] else setupIV fourWire maxCurrent
    outcome := voltage_sweep env simMode start stop points }

end MPPT

namespace Sweep

/-- Parsing of one `:MEAS?` response in `sweep.py` lines 219–231: when
the response has at least two fields and both parse, the pair of raw
values; on a short response or a `float` `ValueError` the fallback pair
`(0, 0)` — the failed point still produces a (placeholder) data pair. -/
def parseSweepReading (fields : List (Option ℚ)) : ℚ × ℚ :=
  match fields with
  | (some a) :: (some b) :: _ => (a, b)
  | _ => (0, 0)

/-- `true` when the response parses into two numeric fields; `false`
exactly when `sweep.py` takes its `(0, 0)` fallback. -/
def sweepParseOk (fields : List (Option ℚ)) : Bool :=
  match fields with
  | (some _) :: (some _) :: _ => true
  | _ => false

/-- The mutable state of `Sweep.IVsweep`: the two data lists and the
abort indicator. -/
structure IVState where
  voltages : List ℚ
  currents : List ℚ
  aborted : Bool
deriving DecidableEq, Repr

/-- The `sweep.IVsweep` loop (lines 207–237): abort check, then the point
is measured and a pair is appended unconditionally — the voltage as read
and the current sign-inverted (`currents.append(-current)`), with the
`(0, 0)` fallback on parse failure. -/
def IVloop (r : ℕ → List (Option ℚ)) (ab : ℕ → Bool) :
    ℕ → List ℚ → IVState → IVState
  | _, [], st => st
  | idx, _ :: rest, st =>
    if ab idx then { st with aborted := true }
    else
      IVloop r ab (idx + 1) rest
        { st with
          voltages := st.voltages ++ [(parseSweepReading (r idx)).1]
          currents := st.currents ++ [-(parseSweepReading (r idx)).2] }

/-- Outcome of one `Sweep.IVsweep` run. -/
structure IVOut where
  voltages : List ℚ
  currents : List ℚ
  aborted : Bool
  /-- The unconditional `:OUTP OFF` after the loop (line 239). -/
  postCmds : List Cmd
deriving DecidableEq, Repr

/-- `Sweep.IVsweep(start, stop, points, delay)` (lines 201–250): iterate
the `np.linspace` setpoints, then turn the output off. -/
def IVsweep (r : ℕ → List (Option ℚ)) (ab : ℕ → Bool) (start stop : ℚ)
    (points : ℕ) : IVOut :=
  let st := IVloop r ab 0 (linspace start stop points)
    { voltages := [], currents := [], aborted := false }
  { voltages := st.voltages, currents := st.currents,
    aborted := st.aborted, postCmds := [Cmd.outpOff] }

/-- `Sweep.setupIV` (`sweep.py` lines 157–186): source function and the
complementary sense function according to the selected sweep mode
(`voltageMode = true` for a voltage sweep), sense-wire mode, terminal
selection, current compliance (when the `Max Current` field is
nonempty), voltage compliance (when the `Max Voltage` field is
nonempty), output enable — in exactly this order. -/
def setupIV (voltageMode fourWire rear : Bool)
    (maxCurrent maxVoltage : Option ℚ) : List Cmd :=
  [Cmd.sourFunc voltageMode, Cmd.sensFunc voltageMode, Cmd.rsen fourWire,
   Cmd.routTerm (!rear)] ++
  (match maxCurrent with
   | some m => [Cmd.currProt m]
   | none => []) ++
  (match maxVoltage with
   | some m => [Cmd.voltProt m]
   | none => []) ++
  [Cmd.outpOn]

end Sweep

/-- Equal-length invariant of the three data lists of `MPPT.voltage_sweep`. -/
def EqLen (st : RunState) : Prop :=
  st.voltages.length = st.currents.length ∧
  st.currents.length = st.powers.length

/-- A concrete instrument environment whose every reading parses to the
pair `(1, 1/2)` and whose abort flag is never set; used to instantiate
universally quantified theorems at a concrete input. -/
def envOk : Env :=
  { readings := fun _ => some [some 1, some (1 / 2)]
    noise := fun _ => 0
    expf := fun _ => 0
    abortAt := fun _ => false }

/-- A concrete environment whose reading at point 0 fails to parse (a
single unparseable field) and whose other readings parse to `(1, 1/2)`;
the abort flag is never set. -/
def envFail0 : Env :=
  { readings := fun i => if i = 0 then some [none] else some [some 1, some (1 / 2)]
    noise := fun _ => 0
    expf := fun _ => 0
    abortAt := fun _ => false }

/-- Raw responses for `sweep.py` with a parse failure at point 0 and
readings `(1, 1/2)` elsewhere. -/
def rFail0 : ℕ → List (Option ℚ) :=
  fun i => if i = 0 then [none] else [some 1, some (1 / 2)]

/-- A concrete environment whose abort flag is already set before the
first point. -/
def envAbort : Env :=
  { readings := fun _ => some [some 1, some (1 / 2)]
    noise := fun _ => 0
    expf := fun _ => 0
    abortAt := fun _ => true }

/-- A concrete sweep outcome (two samples) used to instantiate
theorems about MPP extraction at a concrete input. -/
def outcomeA : SweepOutcome :=
  { voltages := [10, 20], currents := [1, 2], powers := [5, 7],
    writes := [], aborted := false, postCmds := [] }

/-! ### Helper lemmas -/

theorem getD_mem_of_lt (l : List ℚ) (n : ℕ) (h : n < l.length) :
    l.getD n 0 ∈ l := by
  rw [List.getD_eq_getElem l 0 h]
  exact List.getElem_mem h

theorem getD_range_map (f : ℕ → ℚ) {n i : ℕ} (h : i < n) :
    ((List.range n).map f).getD i 0 = f i := by
  have hl : i < ((List.range n).map f).length := by simp [h]
  rw [List.getD_eq_getElem _ _ hl]
  simp

theorem linspace_length (start stop : ℚ) (n : ℕ) :
    (linspace start stop n).length = n := by
  rw [linspace, List.length_map, List.length_range]

theorem linspace_getD (start stop : ℚ) {n i : ℕ} (h : i < n) :
    (linspace start stop n).getD i 0 =
      start + i * ((stop - start) / ((n : ℚ) - 1)) := by
  rw [linspace]
  exact getD_range_map _ h

theorem argmaxFrom_spec :
    ∀ (xs : List ℚ) (i bi : ℕ) (bv : ℚ), bi < i →
      (argmaxFrom i bi bv xs = bi ∧ ∀ x ∈ xs, x ≤ bv) ∨
      (∃ j, j < xs.length ∧ argmaxFrom i bi bv xs = i + j ∧
        bv < xs.getD j 0 ∧
        (∀ m, m < xs.length → xs.getD m 0 ≤ xs.getD j 0) ∧
        (∀ m, m < j → xs.getD m 0 < xs.getD j 0))
  | [], _, _, _, _ => Or.inl ⟨rfl, by simp⟩
  | x :: xs, i, bi, bv, hbi => by
    rw [argmaxFrom]
    by_cases h : bv < x
    · rw [if_pos h]
      rcases argmaxFrom_spec xs (i + 1) i x (Nat.lt_succ_self i) with
        ⟨he, hall⟩ | ⟨j, hj, he, hlt, hmax, hfirst⟩
      · refine Or.inr ⟨0, by simp, by rw [he]; omega, by simpa using h, ?_, by simp⟩
        intro m hm
        match m with
        | 0 => simp
        | m + 1 =>
          simp only [List.getD_cons_succ, List.getD_cons_zero]
          exact hall _ (getD_mem_of_lt xs m (by simpa using hm))
      · refine Or.inr ⟨j + 1, by simpa using hj, by rw [he]; omega, ?_, ?_, ?_⟩
        · simpa using lt_trans h hlt
        · intro m hm
          match m with
          | 0 => simpa using le_of_lt hlt
          | m + 1 =>
            simp only [List.getD_cons_succ]
            exact hmax m (by simpa using hm)
        · intro m hm
          match m with
          | 0 => simpa using hlt
          | m + 1 =>
            simp only [List.getD_cons_succ]
            exact hfirst m (by omega)
    · rw [if_neg h]
      have hxle : x ≤ bv := le_of_not_lt h
      rcases argmaxFrom_spec xs (i + 1) bi bv (by omega) with
        ⟨he, hall⟩ | ⟨j, hj, he, hlt, hmax, hfirst⟩
      · refine Or.inl ⟨he, ?_⟩
        intro y hy
        rcases List.mem_cons.mp hy with rfl | hy2
        · exact hxle
        · exact hall _ hy2
      · refine Or.inr ⟨j + 1, by simpa using hj, by rw [he]; omega, ?_, ?_, ?_⟩
        · simpa using hlt
        · intro m hm
          match m with
          | 0 => simpa using le_of_lt (lt_of_le_of_lt hxle hlt)
          | m + 1 =>
            simp only [List.getD_cons_succ]
            exact hmax m (by simpa using hm)
        · intro m hm
          match m with
          | 0 => simpa using lt_of_le_of_lt hxle hlt
          | m + 1 =>
            simp only [List.getD_cons_succ]
            exact hfirst m (by omega)

theorem argmax_spec (l : List ℚ) (h : l ≠ []) :
    argmax l < l.length ∧
    (∀ m, m < l.length → l.getD m 0 ≤ l.getD (argmax l) 0) ∧
    (∀ m, m < argmax l → l.getD m 0 < l.getD (argmax l) 0) := by
  match l with
  | [] => exact absurd rfl h
  | x :: xs =>
    simp only [argmax]
    rcases argmaxFrom_spec xs 1 0 x (by omega) with
      ⟨he, hall⟩ | ⟨j, hj, he, hlt, hmax, hfirst⟩
    · rw [he]
      refine ⟨by simp, ?_, by omega⟩
      intro m hm
      match m with
      | 0 => simp
      | m + 1 =>
        simp only [List.getD_cons_succ, List.getD_cons_zero]
        exact hall _ (getD_mem_of_lt xs m (by simpa using hm))
    · rw [he]
      have h1j : 1 + j = j + 1 := by omega
      rw [h1j]
      refine ⟨by simpa using hj, ?_, ?_⟩
      · intro m hm
        match m with
        | 0 => simpa using le_of_lt hlt
        | m + 1 =>
          simp only [List.getD_cons_succ]
          exact hmax m (by simpa using hm)
      · intro m hm
        match m with
        | 0 => simpa using hlt
        | m + 1 =>
          simp only [List.getD_cons_succ]
          exact hfirst m (by omega)

theorem measurePoint_real (env : Env) (stop : ℚ) (idx : ℕ) (v : ℚ) :
    measurePoint env false stop idx v = parseReading (env.readings idx) := by
  rw [measurePoint, if_neg (by simp)]

theorem sweepStep_data (env : Env) (simMode : Bool) (stop : ℚ)
    (st : RunState) (idx : ℕ) (v : ℚ) :
    ((sweepStep env simMode stop st idx v).voltages = st.voltages ∧
     (sweepStep env simMode stop st idx v).currents = st.currents ∧
     (sweepStep env simMode stop st idx v).powers = st.powers ∧
     (sweepStep env simMode stop st idx v).aborted = st.aborted) ∨
    (∃ a b, (sweepStep env simMode stop st idx v).voltages = st.voltages ++ [a] ∧
      (sweepStep env simMode stop st idx v).currents = st.currents ++ [b] ∧
      (sweepStep env simMode stop st idx v).powers = st.powers ++ [a * b] ∧
      (sweepStep env simMode stop st idx v).aborted = st.aborted) := by
  cases simMode with
  | false =>
    rcases hm : measurePoint env false stop idx v with _ | p
    · exact Or.inl (by simp [sweepStep, hm])
    · exact Or.inr ⟨p.1, p.2, by simp [sweepStep, hm]⟩
  | true =>
    rcases hm : measurePoint env true stop idx v with _ | p
    · exact Or.inl (by simp [sweepStep, hm])
    · exact Or.inr ⟨p.1, p.2, by simp [sweepStep, hm]⟩

theorem runPoints_eqLen (env : Env) (simMode : Bool) (stop : ℚ) :
    ∀ (vs : List ℚ) (idx : ℕ) (st : RunState), EqLen st →
      EqLen (runPoints env simMode stop idx vs st)
  | [], _, _, h => h
  | v :: rest, idx, st, h => by
    rw [runPoints]
    by_cases ha : env.abortAt idx
    · rw [if_pos ha]
      exact h
    · rw [if_neg ha]
      apply runPoints_eqLen
      obtain ⟨h1, h2⟩ := h
      rcases sweepStep_data env simMode stop st idx v with
        ⟨e1, e2, e3, _⟩ | ⟨a, b, e1, e2, e3, _⟩
      · exact ⟨by rw [e1, e2]; exact h1, by rw [e2, e3]; exact h2⟩
      · refine ⟨?_, ?_⟩
        · rw [e1, e2]
          simp [h1]
        · rw [e2, e3]
          simp [h2]

theorem runPoints_powerInv (env : Env) (simMode : Bool) (stop : ℚ) :
    ∀ (vs : List ℚ) (idx : ℕ) (st : RunState),
      st.voltages.length = st.currents.length →
      st.powers = List.zipWith (fun a b => a * b) st.voltages st.currents →
      (runPoints env simMode stop idx vs st).voltages.length =
          (runPoints env simMode stop idx vs st).currents.length ∧
      (runPoints env simMode stop idx vs st).powers =
        List.zipWith (fun a b => a * b)
          (runPoints env simMode stop idx vs st).voltages
          (runPoints env simMode stop idx vs st).currents
  | [], _, _, hl, hp => ⟨hl, hp⟩
  | v :: rest, idx, st, hl, hp => by
    rw [runPoints]
    by_cases ha : env.abortAt idx
    · rw [if_pos ha]
      exact ⟨hl, hp⟩
    · rw [if_neg ha]
      apply runPoints_powerInv
      · rcases sweepStep_data env simMode stop st idx v with
          ⟨e1, e2, _, _⟩ | ⟨a, b, e1, e2, _, _⟩
        · rw [e1, e2]; exact hl
        · rw [e1, e2]; simp [hl]
      · rcases sweepStep_data env simMode stop st idx v with
          ⟨e1, e2, e3, _⟩ | ⟨a, b, e1, e2, e3, _⟩
        · rw [e1, e2, e3]; exact hp
        · rw [e1, e2, e3, hp, List.zipWith_append _ _ _ _ _ hl]
          rfl

theorem runPoints_abort_first (env : Env) (simMode : Bool) (stop : ℚ)
    (idx : ℕ) (v : ℚ) (rest : List ℚ) (st : RunState)
    (h : env.abortAt idx = true) :
    runPoints env simMode stop idx (v :: rest) st = { st with aborted := true } := by
  rw [runPoints, if_pos h]

theorem runPoints_real_allok (env : Env) (stop : ℚ)
    (hab : ∀ i, env.abortAt i = false) :
    ∀ (vs : List ℚ) (idx : ℕ) (st : RunState),
      (∀ i, idx ≤ i → i < idx + vs.length →
        (parseReading (env.readings i)).isSome) →
      (runPoints env false stop idx vs st).voltages.length =
          st.voltages.length + vs.length ∧
      (runPoints env false stop idx vs st).aborted = st.aborted
  | [], _, _, _ => by simp [runPoints]
  | v :: rest, idx, st, hok => by
    rw [runPoints, if_neg (by simp [hab idx])]
    have hs : (parseReading (env.readings idx)).isSome :=
      hok idx le_rfl (by simp)
    rcases Option.isSome_iff_exists.mp hs with ⟨p, hp⟩
    have hstep : sweepStep env false stop st idx v =
        { st with
          voltages := st.voltages ++ [p.1]
          currents := st.currents ++ [p.2]
          powers := st.powers ++ [p.1 * p.2]
          writes := st.writes ++ [Cmd.sourVolt v] } := by
      simp [sweepStep, measurePoint, hp]
    rw [hstep]
    have hrec := runPoints_real_allok env stop hab rest (idx + 1)
      { st with
        voltages := st.voltages ++ [p.1]
        currents := st.currents ++ [p.2]
        powers := st.powers ++ [p.1 * p.2]
        writes := st.writes ++ [Cmd.sourVolt v] }
      (fun i h1 h2 => hok i (by omega) (by simp; omega))
    obtain ⟨hlen, habort⟩ := hrec
    refine ⟨?_, by simpa using habort⟩
    rw [hlen]
    simp
    omega

theorem runPoints_real_onefail (env : Env) (stop : ℚ) (k : ℕ)
    (hab : ∀ i, env.abortAt i = false)
    (hfail : parseReading (env.readings k) = none) :
    ∀ (vs : List ℚ) (idx : ℕ) (st : RunState),
      idx ≤ k → k < idx + vs.length →
      (∀ i, idx ≤ i → i < idx + vs.length → i ≠ k →
        (parseReading (env.readings i)).isSome) →
      (runPoints env false stop idx vs st).voltages.length =
          st.voltages.length + vs.length - 1 ∧
      (runPoints env false stop idx vs st).aborted = st.aborted
  | [], idx, st, hik, hk, _ => absurd hk (by simp; omega)
  | v :: rest, idx, st, hik, hk, hok => by
    rw [runPoints, if_neg (by simp [hab idx])]
    by_cases he : idx = k
    · subst he
      have hstep : sweepStep env false stop st idx v =
          { st with writes := st.writes ++ [Cmd.sourVolt v] } := by
        simp [sweepStep, measurePoint, hfail]
      rw [hstep]
      have hrec := runPoints_real_allok env stop hab rest (idx + 1)
        { st with writes := st.writes ++ [Cmd.sourVolt v] }
        (fun i h1 h2 => hok i (by omega) (by simp; omega) (by omega))
      obtain ⟨hlen, habort⟩ := hrec
      refine ⟨?_, by simpa using habort⟩
      rw [hlen]
      simp
    · have hs : (parseReading (env.readings idx)).isSome :=
        hok idx le_rfl (by simp) he
      rcases Option.isSome_iff_exists.mp hs with ⟨p, hp⟩
      have hstep : sweepStep env false stop st idx v =
          { st with
            voltages := st.voltages ++ [p.1]
            currents := st.currents ++ [p.2]
            powers := st.powers ++ [p.1 * p.2]
            writes := st.writes ++ [Cmd.sourVolt v] } := by
        simp [sweepStep, measurePoint, hp]
      rw [hstep]
      have hrec := runPoints_real_onefail env stop k hab hfail rest (idx + 1)
        { st with
          voltages := st.voltages ++ [p.1]
          currents := st.currents ++ [p.2]
          powers := st.powers ++ [p.1 * p.2]
          writes := st.writes ++ [Cmd.sourVolt v] }
        (by omega) (by simp at hk ⊢; omega)
        (fun i h1 h2 h3 => hok i (by omega) (by simp; omega) h3)
      obtain ⟨hlen, habort⟩ := hrec
      refine ⟨?_, by simpa using habort⟩
      rw [hlen]
      simp at hk ⊢

theorem parseSweepReading_fail (fields : List (Option ℚ))
    (h : Sweep.sweepParseOk fields = false) :
    Sweep.parseSweepReading fields = (0, 0) := by
  rcases fields with _ | ⟨a, rest⟩
  · rfl
  rcases a with _ | a
  · rfl
  rcases rest with _ | ⟨b, rest2⟩
  · rfl
  rcases b with _ | b
  · rfl
  · simp [Sweep.sweepParseOk] at h

theorem IVloop_no_abort (r : ℕ → List (Option ℚ)) (ab : ℕ → Bool)
    (hab : ∀ i, ab i = false) :
    ∀ (vs : List ℚ) (idx : ℕ) (st : Sweep.IVState),
      Sweep.IVloop r ab idx vs st =
        { voltages := st.voltages ++ (List.range vs.length).map
            (fun j => (Sweep.parseSweepReading (r (idx + j))).1)
          currents := st.currents ++ (List.range vs.length).map
            (fun j => -(Sweep.parseSweepReading (r (idx + j))).2)
          aborted := st.aborted }
  | [], idx, st => by simp [Sweep.IVloop]
  | v :: rest, idx, st => by
    rw [Sweep.IVloop, if_neg (by simp [hab idx])]
    rw [IVloop_no_abort r ab hab rest (idx + 1) _]
    have hmap1 : ((fun j => (Sweep.parseSweepReading (r (idx + j))).1) ∘ Nat.succ) =
        (fun j => (Sweep.parseSweepReading (r (idx + 1 + j))).1) := by
      funext j
      have hj : idx + 1 + j = idx + Nat.succ j := by omega
      simp [Function.comp, hj]
    have hmap2 : ((fun j => -(Sweep.parseSweepReading (r (idx + j))).2) ∘ Nat.succ) =
        (fun j => -(Sweep.parseSweepReading (r (idx + 1 + j))).2) := by
      funext j
      have hj : idx + 1 + j = idx + Nat.succ j := by omega
      simp [Function.comp, hj]
    simp only [List.length_cons, List.range_succ_eq_map, List.map_cons,
      List.map_map, Nat.add_zero, List.append_assoc, List.cons_append,
      List.nil_append, hmap1, hmap2]

/-! ### Claim theorems -/

/-- C1: for every valid sweep configuration (`point_count ≥ 2`), the
setpoint sequence `np.linspace(start, stop, point_count)` has exactly
`point_count` entries, starts at `start_voltage`, ends at
`stop_voltage`, and is monotonic in the direction of `stop - start`
(non-decreasing when `stop ≥ start`, non-increasing when
`stop < start`). -/
theorem C1_setpoint_sequence (start stop : ℚ) (n : ℕ) (h : 2 ≤ n) :
    (linspace start stop n).length = n ∧
    (linspace start stop n).getD 0 0 = start ∧
    (linspace start stop n).getD (n - 1) 0 = stop ∧
    (start ≤ stop → ∀ i j, i ≤ j → j < n →
      (linspace start stop n).getD i 0 ≤ (linspace start stop n).getD j 0) ∧
    (stop < start → ∀ i j, i ≤ j → j < n →
      (linspace start stop n).getD j 0 ≤ (linspace start stop n).getD i 0) := by
  have h2 : (2 : ℚ) ≤ (n : ℚ) := by exact_mod_cast h
  have hpos : (0 : ℚ) < (n : ℚ) - 1 := by linarith
  have hne : ((n : ℚ) - 1) ≠ 0 := ne_of_gt hpos
  refine ⟨linspace_length start stop n, ?_, ?_, ?_, ?_⟩
  · rw [linspace_getD start stop (by omega : 0 < n)]
    simp
  · rw [linspace_getD start stop (by omega : n - 1 < n)]
    have hcast : ((n - 1 : ℕ) : ℚ) = (n : ℚ) - 1 := by
      have h1 : (1 : ℕ) ≤ n := by omega
      push_cast [h1]
      ring
    rw [hcast, mul_comm, div_mul_cancel₀ _ hne]
    ring
  · intro hst i j hij hj
    rw [linspace_getD start stop (by omega : i < n),
      linspace_getD start stop hj]
    have hd : (0 : ℚ) ≤ (stop - start) / ((n : ℚ) - 1) :=
      div_nonneg (by linarith) (le_of_lt hpos)
    have hij2 : (i : ℚ) ≤ (j : ℚ) := by exact_mod_cast hij
    have := mul_le_mul_of_nonneg_right hij2 hd
    linarith
  · intro hst i j hij hj
    rw [linspace_getD start stop (by omega : i < n),
      linspace_getD start stop hj]
    have hd : (stop - start) / ((n : ℚ) - 1) ≤ 0 :=
      div_nonpos_iff.mpr (Or.inr ⟨by linarith, le_of_lt hpos⟩)
    have hij2 : (i : ℚ) ≤ (j : ℚ) := by exact_mod_cast hij
    have := mul_le_mul_of_nonpos_right hij2 hd
    linarith

/-- Witness for C1 at the spec's concrete scenario
(`start = 0`, `stop = 5`, `points = 6`). -/
theorem C1_setpoint_sequence_witness :
    (linspace 0 5 6).length = 6 ∧ (linspace 0 5 6).getD 0 0 = 0 ∧
    (linspace 0 5 6).getD 5 0 = 5 := by
  have h := C1_setpoint_sequence 0 5 6 (by norm_num)
  exact ⟨h.1, h.2.1, h.2.2.1⟩

/-- C3: on a non-empty sample sequence, `find_mppt_point` returns the
sample at index `np.argmax(powers)` — its power is maximal over the whole
sequence, and every strictly earlier sample has strictly smaller power,
so ties in maximal power are won by the earliest sequence position. -/
theorem C3_mpp_extraction (o : SweepOutcome) (h : o.powers ≠ []) :
    find_mppt_point o = some
      { voltage := o.voltages.getD (argmax o.powers) 0
        current := o.currents.getD (argmax o.powers) 0
        power := o.powers.getD (argmax o.powers) 0 } ∧
    argmax o.powers < o.powers.length ∧
    (∀ j, j < o.powers.length →
      o.powers.getD j 0 ≤ o.powers.getD (argmax o.powers) 0) ∧
    (∀ j, j < argmax o.powers →
      o.powers.getD j 0 < o.powers.getD (argmax o.powers) 0) := by
  obtain ⟨hb, hmax, hfirst⟩ := argmax_spec o.powers h
  refine ⟨?_, hb, hmax, hfirst⟩
  rw [find_mppt_point, if_neg (by simpa using h)]

/-- Witness for C3 at the concrete outcome `outcomeA`
(powers `[5, 7]`, maximum at index 1). -/
theorem C3_mpp_extraction_witness :
    find_mppt_point outcomeA = some { voltage := 20, current := 2, power := 7 } := by
  have h := (C3_mpp_extraction outcomeA (by simp [outcomeA])).1
  rw [h]
  rfl

theorem zipWith_mul_getD (v c : List ℚ) (hl : v.length = c.length)
    (j : ℕ) (hj : j < (List.zipWith (fun a b => a * b) v c).length) :
    (List.zipWith (fun a b => a * b) v c).getD j 0 =
      v.getD j 0 * c.getD j 0 := by
  have hjv : j < v.length := by
    simp [List.length_zipWith] at hj
    omega
  have hjc : j < c.length := by omega
  rw [List.getD_eq_getElem _ _ hj, List.getD_eq_getElem _ _ hjv,
    List.getD_eq_getElem _ _ hjc]
  exact List.getElem_zipWith

/-- C4: in every run — simulation or real path alike — the recorded
powers list is pointwise the product of the recorded voltages and
currents: every sample's power equals its voltage times its current
(exactly, in this rational model), and power is obtained no other way. -/
theorem C4_power_derived (env : Env) (simMode : Bool) (start stop : ℚ) (n : ℕ) :
    (voltage_sweep env simMode start stop n).powers =
      List.zipWith (fun a b => a * b)
        (voltage_sweep env simMode start stop n).voltages
        (voltage_sweep env simMode start stop n).currents ∧
    ∀ j, j < (voltage_sweep env simMode start stop n).powers.length →
      (voltage_sweep env simMode start stop n).powers.getD j 0 =
        (voltage_sweep env simMode start stop n).voltages.getD j 0 *
          (voltage_sweep env simMode start stop n).currents.getD j 0 := by
  have hinv := runPoints_powerInv env simMode stop (linspace start stop n) 0
    { voltages := [], currents := [], powers := [], writes := [], aborted := false }
    rfl rfl
  have hz : (voltage_sweep env simMode start stop n).powers =
      List.zipWith (fun a b => a * b)
        (voltage_sweep env simMode start stop n).voltages
        (voltage_sweep env simMode start stop n).currents := by
    simp only [voltage_sweep]
    exact hinv.2
  have hlen : (voltage_sweep env simMode start stop n).voltages.length =
      (voltage_sweep env simMode start stop n).currents.length := by
    simp only [voltage_sweep]
    exact hinv.1
  refine ⟨hz, ?_⟩
  intro j hj
  rw [hz] at hj ⊢
  exact zipWith_mul_getD _ _ hlen j hj

/-- Witness for C4: the per-index clause at a concrete simulated run. -/
theorem C4_power_derived_witness :
    0 < (voltage_sweep envOk true 0 5 2).powers.length ∧
    (voltage_sweep envOk true 0 5 2).powers.getD 0 0 =
      (voltage_sweep envOk true 0 5 2).voltages.getD 0 0 *
        (voltage_sweep envOk true 0 5 2).currents.getD 0 0 := by
  refine ⟨by decide, ?_⟩
  exact (C4_power_derived envOk true 0 5 2).2 0 (by decide)

/-- C5: on the real-hardware path, every successfully parsed reading
stores the first numeric field as the voltage and the sign-inverted
(negated) second numeric field as the current — in `MPPT.voltage_sweep`
and in `Sweep.IVsweep` alike. -/
theorem C5_current_sign_inverted (a b : ℚ) (rest : List (Option ℚ)) :
    (∀ (env : Env) (stop v : ℚ) (idx : ℕ),
      env.readings idx = some ((some a) :: (some b) :: rest) →
      measurePoint env false stop idx v = some (a, -b) ∧
      ∀ st : RunState,
        (sweepStep env false stop st idx v).currents = st.currents ++ [-b]) ∧
    (∀ (r : ℕ → List (Option ℚ)) (ab : ℕ → Bool) (idx : ℕ) (v : ℚ)
        (st : Sweep.IVState),
      r idx = (some a) :: (some b) :: rest → ab idx = false →
      Sweep.IVloop r ab idx [v] st =
        { st with
          voltages := st.voltages ++ [a]
          currents := st.currents ++ [-b] }) := by
  constructor
  · intro env stop v idx h
    have hm : measurePoint env false stop idx v = some (a, -b) := by
      rw [measurePoint_real, h]
      rfl
    exact ⟨hm, fun st => by simp [sweepStep, hm]⟩
  · intro r ab idx v st h hab
    rw [Sweep.IVloop, if_neg (by simp [hab])]
    simp [Sweep.IVloop, Sweep.parseSweepReading, h]

/-- Witness for C5 at the concrete environment `envOk`. -/
theorem C5_current_sign_inverted_witness :
    measurePoint envOk false 5 0 0 = some (1, -(1 / 2)) :=
  ((C5_current_sign_inverted 1 (1 / 2) []).1 envOk 5 0 0 rfl).1

/-- C6: the simulation source always returns a non-negative current
(the negative-noise case is clamped to 0), and for every requested
voltage `v ≥ 0.8 × stop_voltage` — the code's `v >= Voc` branch — it
returns exactly 0, for every noise value: that branch is
unconditionally noise-free. -/
theorem C6_simulation_current (expf : ℚ → ℚ) (noise v stop : ℚ) :
    0 ≤ simCurrent expf noise v stop ∧
    (stop * (4 / 5) ≤ v → simCurrent expf noise v stop = 0) := by
  simp only [simCurrent]
  by_cases h : stop * (4 / 5) ≤ v
  · rw [if_pos h]
    exact ⟨le_refl 0, fun _ => rfl⟩
  · rw [if_neg h]
    exact ⟨le_max_left 0 _, fun hc => absurd hc h⟩

/-- Witness for C6 at `v = 4`, `stop = 5` (so `v = 0.8 × stop` exactly),
with nonzero noise and the identity in place of `exp`. -/
theorem C6_simulation_current_witness :
    simCurrent (fun x => x) 1 4 5 = 0 :=
  (C6_simulation_current (fun x => x) 1 4 5).2 (by norm_num)

/-- C8: in both applications' configuration sequences, the output-enable
command is never issued before the compliance-limit command(s): no
compliance command occurs after output enable, and a configured current
compliance limit appears strictly before output enable. -/
theorem C8_compliance_before_output :
    (∀ (fw : Bool) (mc : Option ℚ),
      noProtAfterOutpOn (MPPT.setupIV fw mc) = true) ∧
    (∀ (vm fw rt : Bool) (mc mv : Option ℚ),
      noProtAfterOutpOn (Sweep.setupIV vm fw rt mc mv) = true) ∧
    (∀ (fw : Bool) (m : ℚ),
      Cmd.currProt m ∈
        (MPPT.setupIV fw (some m)).takeWhile (fun c => ! c.isOutpOn)) := by
  refine ⟨?_, ?_, ?_⟩
  · intro fw mc
    cases mc <;> rfl
  · intro vm fw rt mc mv
    cases mc <;> cases mv <;> rfl
  · intro fw m
    simp [MPPT.setupIV, List.takeWhile, Cmd.isOutpOn, Cmd.isProt]

theorem IVloop_abort_first (r : ℕ → List (Option ℚ)) (ab : ℕ → Bool)
    (idx : ℕ) (v : ℚ) (rest : List ℚ) (st : Sweep.IVState)
    (h : ab idx = true) :
    Sweep.IVloop r ab idx (v :: rest) st = { st with aborted := true } := by
  rw [Sweep.IVloop, if_pos h]

/-- C9 counterexample: in `sweep.py`, a run whose cancellation flag is
set before the first setpoint does end aborted with no samples, but the
post-abort cleanup is only `:OUTP OFF` (line 239): the source is never
zeroed, so the claimed full shutdown — zero the source, disable output,
release — is not invoked there; neither application releases the
connection within a run (that happens only at application teardown). -/
theorem C9_counterexample :
    (Sweep.IVsweep (fun _ => [some 1, some (1 / 2)]) (fun _ => true) 0 5 3).aborted
      = true ∧
    (Sweep.IVsweep (fun _ => [some 1, some (1 / 2)]) (fun _ => true) 0 5 3).voltages
      = [] ∧
    (Sweep.IVsweep (fun _ => [some 1, some (1 / 2)]) (fun _ => true) 0 5 3).postCmds
      = [Cmd.outpOff] ∧
    Cmd.sourVolt 0 ∉
      (Sweep.IVsweep (fun _ => [some 1, some (1 / 2)]) (fun _ => true) 0 5 3).postCmds := by
  refine ⟨rfl, rfl, rfl, by decide⟩

/-- C9 amended: when the cancellation flag is observed set before the
first of at least one setpoint, both runs end aborted with empty data
lists and no setpoint driven (`ABORTED` status in `MPPT.voltage_sweep`),
and the end-of-run cleanup still runs — but it differs per application:
`MPPT.voltage_sweep` zeroes the source and disables the output
(`:SOUR:VOLT 0`, `:OUTP OFF`), while `Sweep.IVsweep` only disables the
output (`:OUTP OFF`) without zeroing the source; neither releases the
connection within the run. -/
theorem C9_abort_before_first_amended (env : Env)
    (r : ℕ → List (Option ℚ)) (ab : ℕ → Bool) (start stop : ℚ) (n : ℕ)
    (hn : 1 ≤ n) :
    (env.abortAt 0 = true →
      (voltage_sweep env false start stop n).aborted = true ∧
      status (voltage_sweep env false start stop n) = Status.aborted ∧
      (voltage_sweep env false start stop n).voltages = [] ∧
      (voltage_sweep env false start stop n).currents = [] ∧
      (voltage_sweep env false start stop n).powers = [] ∧
      (voltage_sweep env false start stop n).writes = [] ∧
      (voltage_sweep env false start stop n).postCmds =
        [Cmd.sourVolt 0, Cmd.outpOff]) ∧
    (ab 0 = true →
      (Sweep.IVsweep r ab start stop n).aborted = true ∧
      (Sweep.IVsweep r ab start stop n).voltages = [] ∧
      (Sweep.IVsweep r ab start stop n).currents = [] ∧
      (Sweep.IVsweep r ab start stop n).postCmds = [Cmd.outpOff] ∧
      Cmd.sourVolt 0 ∉ (Sweep.IVsweep r ab start stop n).postCmds) := by
  have hne : linspace start stop n ≠ [] := by
    intro hc
    have hl := linspace_length start stop n
    rw [hc] at hl
    simp at hl
    omega
  rcases List.exists_cons_of_ne_nil hne with ⟨v, rest, hvr⟩
  constructor
  · intro hab
    have hrun : runPoints env false stop 0 (linspace start stop n)
        { voltages := [], currents := [], powers := [], writes := [],
          aborted := false } =
        { voltages := [], currents := [], powers := [], writes := [],
          aborted := true } := by
      rw [hvr, runPoints_abort_first env false stop 0 v rest _ hab]
    refine ⟨?_, ?_, ?_, ?_, ?_, ?_, ?_⟩ <;>
      simp [voltage_sweep, hrun, status]
  · intro habS
    have hrun : Sweep.IVloop r ab 0 (linspace start stop n)
        { voltages := [], currents := [], aborted := false } =
        { voltages := [], currents := [], aborted := true } := by
      rw [hvr, IVloop_abort_first r ab 0 v rest _ habS]
    refine ⟨?_, ?_, ?_, ?_, ?_⟩ <;>
      simp [Sweep.IVsweep, hrun]

/-- Witness for the amended C9: the always-aborting environment
`envAbort` for `MPPT.voltage_sweep` and an always-set flag for
`Sweep.IVsweep`, three setpoints each. -/
theorem C9_abort_before_first_witness :
    (voltage_sweep envAbort false 0 5 3).voltages = [] ∧
    status (voltage_sweep envAbort false 0 5 3) = Status.aborted ∧
    (voltage_sweep envAbort false 0 5 3).postCmds =
      [Cmd.sourVolt 0, Cmd.outpOff] ∧
    (Sweep.IVsweep (fun _ => [some 1]) (fun _ => true) 0 5 3).voltages = [] ∧
    (Sweep.IVsweep (fun _ => [some 1]) (fun _ => true) 0 5 3).postCmds =
      [Cmd.outpOff] := by
  have h := C9_abort_before_first_amended envAbort (fun _ => [some 1])
    (fun _ => true) 0 5 3 (by norm_num)
  have hA := h.1 rfl
  have hB := h.2 rfl
  exact ⟨hA.2.2.1, hA.2.1, hA.2.2.2.2.2.2, hB.2.1, hB.2.2.2.1⟩

/-- C10: the three accumulated lists of `MPPT.voltage_sweep` stay in
lockstep: each loop iteration either appends exactly one element to
voltages, currents and powers alike, or — on a per-point error — appends
to none of them; from any equal-length state, any number of iterations
preserves equal lengths, and in particular the three lists of every
completed `voltage_sweep` have equal lengths. -/
theorem C10_parallel_lists (env : Env) (simMode : Bool) (stop : ℚ) :
    (∀ (st : RunState) (idx : ℕ) (v : ℚ),
      ((sweepStep env simMode stop st idx v).voltages = st.voltages ∧
       (sweepStep env simMode stop st idx v).currents = st.currents ∧
       (sweepStep env simMode stop st idx v).powers = st.powers) ∨
      (∃ a b,
        (sweepStep env simMode stop st idx v).voltages = st.voltages ++ [a] ∧
        (sweepStep env simMode stop st idx v).currents = st.currents ++ [b] ∧
        (sweepStep env simMode stop st idx v).powers = st.powers ++ [a * b])) ∧
    (∀ (vs : List ℚ) (idx : ℕ) (st : RunState),
      EqLen st → EqLen (runPoints env simMode stop idx vs st)) ∧
    (∀ (start : ℚ) (n : ℕ),
      (voltage_sweep env simMode start stop n).voltages.length =
        (voltage_sweep env simMode start stop n).currents.length ∧
      (voltage_sweep env simMode start stop n).currents.length =
        (voltage_sweep env simMode start stop n).powers.length) := by
  refine ⟨?_, ?_, ?_⟩
  · intro st idx v
    rcases sweepStep_data env simMode stop st idx v with
      ⟨e1, e2, e3, _⟩ | ⟨a, b, e1, e2, e3, _⟩
    · exact Or.inl ⟨e1, e2, e3⟩
    · exact Or.inr ⟨a, b, e1, e2, e3⟩
  · exact fun vs idx st h => runPoints_eqLen env simMode stop vs idx st h
  · intro start n
    have h := runPoints_eqLen env simMode stop (linspace start stop n) 0
      { voltages := [], currents := [], powers := [], writes := [],
        aborted := false } ⟨rfl, rfl⟩
    exact ⟨by simpa [voltage_sweep] using h.1, by simpa [voltage_sweep] using h.2⟩

/-- Witness for C10: the preservation clause applied to the empty
equal-length state on a concrete two-point run with a failing point. -/
theorem C10_parallel_lists_witness :
    EqLen (runPoints envFail0 false 5 0 [0, 5]
      { voltages := [], currents := [], powers := [], writes := [],
        aborted := false }) :=
  (C10_parallel_lists envFail0 false 5).2.1 [0, 5] 0 _ ⟨rfl, rfl⟩

/-- C2 counterexample: in `sweep.py`, a parse failure at point 0 of a
2-point sweep (point 1 succeeding, no abort) is not skipped — the
`ValueError` fallback records a placeholder `(0, 0)` pair, so the run
ends with 2 samples rather than n − 1 = 1, refuting the claim for
`Sweep.IVsweep`. -/
theorem C2_counterexample :
    Sweep.sweepParseOk (rFail0 0) = false ∧
    Sweep.sweepParseOk (rFail0 1) = true ∧
    (Sweep.IVsweep rFail0 (fun _ => false) 0 5 2).voltages.length = 2 ∧
    (Sweep.IVsweep rFail0 (fun _ => false) 0 5 2).voltages.length ≠ 2 - 1 ∧
    (Sweep.IVsweep rFail0 (fun _ => false) 0 5 2).voltages.getD 0 0 = 0 ∧
    (Sweep.IVsweep rFail0 (fun _ => false) 0 5 2).currents.getD 0 0 = 0 := by
  refine ⟨rfl, rfl, rfl, by decide, rfl, rfl⟩

/-- C2 amended: a measurement/parse error at exactly one point k of n
aborts neither run, but the two applications record it differently.  In
`MPPT.voltage_sweep` (real path, n ≥ 2, no abort) point k contributes no
sample: the run ends with n − 1 samples and status COMPLETED.  In
`Sweep.IVsweep` the failed point instead contributes a placeholder
`(0, 0)` sample: the run ends with n samples, with zeros at position
k. -/
theorem C2_single_failure_amended (env : Env) (r : ℕ → List (Option ℚ))
    (ab : ℕ → Bool) (start stop : ℚ) (n k : ℕ) (h2 : 2 ≤ n) (hk : k < n) :
    ((∀ i, env.abortAt i = false) →
      parseReading (env.readings k) = none →
      (∀ i, i < n → i ≠ k → (parseReading (env.readings i)).isSome) →
      (voltage_sweep env false start stop n).voltages.length = n - 1 ∧
      status (voltage_sweep env false start stop n) = Status.completed) ∧
    ((∀ i, ab i = false) →
      Sweep.sweepParseOk (r k) = false →
      (Sweep.IVsweep r ab start stop n).voltages.length = n ∧
      (Sweep.IVsweep r ab start stop n).currents.length = n ∧
      (Sweep.IVsweep r ab start stop n).voltages.getD k 0 = 0 ∧
      (Sweep.IVsweep r ab start stop n).currents.getD k 0 = 0) := by
  constructor
  · intro hab hfail hok
    have hrun := runPoints_real_onefail env stop k hab hfail
      (linspace start stop n) 0
      { voltages := [], currents := [], powers := [], writes := [],
        aborted := false }
      (by omega) (by rw [linspace_length]; omega)
      (fun i h1 h2i h3 => hok i (by rw [linspace_length] at h2i; omega) h3)
    obtain ⟨hlen, habt⟩ := hrun
    have hv : (voltage_sweep env false start stop n).voltages.length = n - 1 := by
      simp only [voltage_sweep]
      rw [hlen, linspace_length]
      simp
    refine ⟨hv, ?_⟩
    have hne : (voltage_sweep env false start stop n).voltages ≠ [] := by
      intro hc
      rw [hc] at hv
      simp at hv
      omega
    have hax : (voltage_sweep env false start stop n).aborted = false := by
      simp only [voltage_sweep]
      simpa using habt
    rw [status, if_neg (by simp [hax]),
      if_neg (by simpa [List.isEmpty_iff] using hne)]
  · intro habS hfailS
    have hloop := IVloop_no_abort r ab habS (linspace start stop n) 0
      { voltages := [], currents := [], aborted := false }
    have hv : (Sweep.IVsweep r ab start stop n).voltages =
        (List.range n).map (fun j => (Sweep.parseSweepReading (r j)).1) := by
      simp only [Sweep.IVsweep]
      rw [hloop]
      simp [linspace_length]
    have hc : (Sweep.IVsweep r ab start stop n).currents =
        (List.range n).map (fun j => -(Sweep.parseSweepReading (r j)).2) := by
      simp only [Sweep.IVsweep]
      rw [hloop]
      simp [linspace_length]
    refine ⟨by rw [hv]; simp, by rw [hc]; simp, ?_, ?_⟩
    · rw [hv, getD_range_map _ hk, parseSweepReading_fail _ hfailS]
    · rw [hc, getD_range_map _ hk, parseSweepReading_fail _ hfailS]
      simp

/-- Witness for the amended C2 at the concrete failing environments
`envFail0` and `rFail0` (failure at point 0 of 2). -/
theorem C2_single_failure_witness :
    (voltage_sweep envFail0 false 0 5 2).voltages.length = 1 ∧
    status (voltage_sweep envFail0 false 0 5 2) = Status.completed ∧
    (Sweep.IVsweep rFail0 (fun _ => false) 0 5 2).currents.length = 2 := by
  have h := C2_single_failure_amended envFail0 rFail0 (fun _ => false) 0 5 2 0
    (by norm_num) (by norm_num)
  have hA := h.1 (fun i => rfl) rfl
    (fun i hi hne => by
      have hi1 : i = 1 := by omega
      subst hi1
      rfl)
  have hB := h.2 (fun i => rfl) rfl
  exact ⟨hA.1, hA.2, hB.2.1⟩

/-- C7 counterexample: `start_sweep` performs no validation of
`point_count`: with `point_count = 1` — violating the `point_count ≥ 2`
invariant — and a working instrument, the full configuration command
sequence is still issued and one sample is recorded.  No
`InvalidConfigError` exists anywhere in the code, and neither
configuration nor sampling is prevented. -/
theorem C7_counterexample :
    (MPPT.start_sweep envOk false false (some (1 / 2)) 0 5 1).configCmds ≠ [] ∧
    (MPPT.start_sweep envOk false false (some (1 / 2)) 0 5 1).configCmds =
      MPPT.setupIV false (some (1 / 2)) ∧
    (MPPT.start_sweep envOk false false (some (1 / 2)) 0 5 1).outcome.voltages.length
      = 1 := by
  refine ⟨by decide, rfl, rfl⟩

/-- C7 amended: a configuration with `point_count < 2` is not rejected:
the code has no `InvalidConfigError` and no validation of `point_count`,
so on the real path `start_sweep` still issues the full configuration
sequence and runs the sweep, which (absent aborts and measurement
errors) records exactly `point_count` samples — one for
`point_count = 1`, none for `point_count = 0`. -/
theorem C7_no_validation_amended (env : Env) (fw : Bool) (mc : Option ℚ)
    (start stop : ℚ) (n : ℕ) (_hn : n < 2)
    (hab : ∀ i, env.abortAt i = false)
    (hok : ∀ i, (parseReading (env.readings i)).isSome) :
    (MPPT.start_sweep env false fw mc start stop n).configCmds =
      MPPT.setupIV fw mc ∧
    (MPPT.start_sweep env false fw mc start stop n).configCmds ≠ [] ∧
    (MPPT.start_sweep env false fw mc start stop n).outcome.voltages.length
      = n := by
  refine ⟨rfl, ?_, ?_⟩
  · cases mc <;> simp [MPPT.start_sweep, MPPT.setupIV]
  · have h := runPoints_real_allok env stop hab (linspace start stop n) 0
      { voltages := [], currents := [], powers := [], writes := [],
        aborted := false }
      (fun i h1 h2 => hok i)
    simp only [MPPT.start_sweep, voltage_sweep]
    rw [h.1, linspace_length]
    simp

/-- Witness for the amended C7 at `point_count = 0` with the concrete
environment `envOk`. -/
theorem C7_no_validation_witness :
    (MPPT.start_sweep envOk false false (some (1 / 2)) 0 5 0).outcome.voltages.length
      = 0 ∧
    (MPPT.start_sweep envOk false false (some (1 / 2)) 0 5 0).configCmds ≠ [] := by
  have h := C7_no_validation_amended envOk false (some (1 / 2)) 0 5 0
    (by norm_num) (fun i => rfl) (fun i => rfl)
  exact ⟨h.2.2, h.2.1⟩
